import Mathlib

/-
Verification of the interruptible agent-execution loop of the
`building_ai_agents_with_langgraph` notebooks: the router, the model-invocation
and tool-execution steps, the checkpoint store, and the pause/resume state
machine described in the specification.  Functions present in the notebooks
(`routing_condition`, `agent_node`, `chatbot`, `get_current_date`, the graph
wiring) are embedded directly from the source; the library prebuilts the
notebooks instantiate (ToolNode, MemorySaver, the stream/resume protocol) are
modelled from the specification's contracts, as marked in their doc comments.
-/

namespace AgentLoop

/-- A structured tool-invocation request emitted by the model collaborator:
an `id` unique within its turn, the `name` of the capability, and an opaque
argument payload (the `tool_calls` entries of the notebooks). -/
structure ToolCall where
  id : String
  name : String
  args : String
deriving DecidableEq

/-- The message union threaded through the graph state: user turns, assistant
turns (optionally carrying tool calls), and tool-result messages (LangChain's
ToolMessage, holding a `tool_call_id`). -/
inductive Message where
  | user (text : String)
  | assistant (text : String) (tool_calls : List ToolCall)
  | tool (tool_call_id : String) (content : String)
deriving DecidableEq

/-- Tool calls requested by a message: those of an assistant turn; other
message kinds carry none (`.tool_calls` in the source). -/
def Message.tool_calls : Message → List ToolCall
  | .assistant _ tcs => tcs
  | _ => []

/-- Targets of the conditional edge out of the agent node in the source graphs:
terminate (`END`), the human-input placeholder node (`ask_user`), and the tool
execution node (`tool_node`). -/
inductive Route where
  | END
  | ask_user
  | tool_node
deriving DecidableEq

/-- Embedded from the source (`routing_condition`): inspect the last message of
the state; if it has no tool calls return END, else if its first tool call is
named AskUser return ask_user, else return tool_node.  Python's `messages[-1]`
raises on an empty list, modelled by `Option`. -/
def routing_condition (messages : List Message) : Option Route :=
  match messages.getLast? with
  | none => none
  | some last_message =>
    match last_message.tool_calls with
    | [] => some Route.END
    | tc :: _ =>
      if tc.name = "AskUser" then some Route.ask_user else some Route.tool_node

/-- C1: for every conversation state with a latest message, the Router follows
the decision table in order: a latest message with no tool calls routes to
Terminate (END); otherwise, a first tool call named with the
human-clarification sentinel AskUser routes to the Human-Input Pause
(ask_user); otherwise the state routes to the Tool-Execution Step
(tool_node). -/
theorem router_decision_table (msgs : List Message) (last_message : Message)
    (h : msgs.getLast? = some last_message) :
    (last_message.tool_calls = [] → routing_condition msgs = some Route.END) ∧
    (∀ tc rest, last_message.tool_calls = tc :: rest →
      ((tc.name = "AskUser" → routing_condition msgs = some Route.ask_user) ∧
       (tc.name ≠ "AskUser" → routing_condition msgs = some Route.tool_node))) := by
  constructor
  · intro hnil
    simp [routing_condition, h, hnil]
  · intro tc rest hcons
    constructor
    · intro hname
      simp [routing_condition, h, hcons, hname]
    · intro hname
      simp [routing_condition, h, hcons, hname]

/-- Witness for C1: at the state whose last message requests a single AskUser
call, the Router selects the Human-Input Pause. -/
theorem router_decision_table_witness :
    routing_condition
        [Message.user "What is the weather?",
         Message.assistant "" [⟨"call_0", "AskUser", "location?"⟩]] =
      some Route.ask_user := by
  have h := router_decision_table
      [Message.user "What is the weather?",
       Message.assistant "" [⟨"call_0", "AskUser", "location?"⟩]]
      (Message.assistant "" [⟨"call_0", "AskUser", "location?"⟩]) (by decide)
  exact (h.2 ⟨"call_0", "AskUser", "location?"⟩ [] rfl).1 rfl

/-- C10: when the latest message carries at least one tool call, the route is a
function of the first call's name alone: ask_user exactly when that name is
AskUser, tool_node otherwise, regardless of the names at later positions; and
any two states whose first tool calls share a name are routed alike. -/
theorem router_uses_first_tool_call (msgs : List Message)
    (last_message : Message) (tc : ToolCall) (rest : List ToolCall)
    (h : msgs.getLast? = some last_message)
    (hcons : last_message.tool_calls = tc :: rest) :
    (routing_condition msgs = some Route.ask_user ↔ tc.name = "AskUser") ∧
    (tc.name ≠ "AskUser" → routing_condition msgs = some Route.tool_node) ∧
    (∀ (msgs₂ : List Message) (last₂ : Message) (tc₂ : ToolCall)
        (rest₂ : List ToolCall), msgs₂.getLast? = some last₂ →
        last₂.tool_calls = tc₂ :: rest₂ → tc₂.name = tc.name →
        routing_condition msgs₂ = routing_condition msgs) := by
  refine ⟨?_, ?_, ?_⟩
  · by_cases hname : tc.name = "AskUser" <;>
      simp [routing_condition, h, hcons, hname]
  · intro hname
    simp [routing_condition, h, hcons, hname]
  · intro msgs₂ last₂ tc₂ rest₂ h₂ hcons₂ hname₂
    by_cases hname : tc.name = "AskUser" <;>
      simp [routing_condition, h, hcons, h₂, hcons₂, hname₂, hname]

/-- Witness for C10: a mixed turn whose first call is the ordinary search tool
and whose second call is the AskUser sentinel is still routed to the
Tool-Execution Step. -/
theorem router_uses_first_tool_call_witness :
    routing_condition
        [Message.assistant ""
          [⟨"call_1", "tavily_search_results_json", "weather"⟩,
           ⟨"call_2", "AskUser", "which city?"⟩]] =
      some Route.tool_node := by
  have h := router_uses_first_tool_call
      [Message.assistant ""
        [⟨"call_1", "tavily_search_results_json", "weather"⟩,
         ⟨"call_2", "AskUser", "which city?"⟩]]
      (Message.assistant ""
        [⟨"call_1", "tavily_search_results_json", "weather"⟩,
         ⟨"call_2", "AskUser", "which city?"⟩])
      ⟨"call_1", "tavily_search_results_json", "weather"⟩
      [⟨"call_2", "AskUser", "which city?"⟩] (by decide) rfl
  exact h.2.1 (by decide)

/-- Modelled from the spec: a Tool Registry entry — a unique `name` and an
`invoke(arguments) -> result | raises ToolExecutionError` capability; a raised
error is the `Except.error` branch.  (The notebooks instantiate third-party
tool objects; only `get_current_date`'s body is repository code.) -/
structure ToolEntry where
  name : String
  invoke : String → Except String String

/-- Look up a tool by name in the registry (first match). -/
def lookupTool (reg : List ToolEntry) (n : String) : Option ToolEntry :=
  reg.find? (fun t => t.name == n)

/-- Modelled from the spec: executing one tool call — look the tool up by name,
invoke it with the call's arguments, and wrap the returned value (or the raised
error, stringified, including the unknown-tool case) in a result message
referencing the call's id.  This is the per-call behaviour of the library
prebuilt ToolNode that the notebooks instantiate. -/
def execToolCall (reg : List ToolEntry) (tc : ToolCall) : Message :=
  match lookupTool reg tc.name with
  | none => Message.tool tc.id ("Error: unknown tool " ++ tc.name)
  | some t =>
    match t.invoke tc.args with
    | Except.ok r => Message.tool tc.id r
    | Except.error e => Message.tool tc.id ("Error: " ++ e)

/-- Modelled from the spec: the Tool-Execution Step (ToolNode) — for each tool
call of the turn that is not the AskUser clarification sentinel, in request
order, produce exactly one result message via `execToolCall`. -/
def toolNode (reg : List ToolEntry) (tcs : List ToolCall) : List Message :=
  (tcs.filter (fun tc => tc.name != "AskUser")).map (execToolCall reg)

/-- The id referenced by a tool-result message (`none` for other kinds). -/
def resultId : Message → Option String
  | Message.tool i _ => some i
  | _ => none

/-- Modelled from the spec: the `add_messages` reducer of the state — new
messages are appended after the existing history. -/
def add_messages (old new : List Message) : List Message := old ++ new

/-- The external model collaborator: from a message history it produces the
content and tool calls of one assistant turn (an opaque, parameterised
function — the core never inspects how it is computed). -/
def LLM : Type := List Message → String × List ToolCall

/-- Embedded from the source (`agent_node`, also named `chatbot`): invoke the
model with the full message history and return the one-element message delta
holding the raw result. -/
def agent_node (llm : LLM) (messages : List Message) : List Message :=
  [Message.assistant (llm messages).1 (llm messages).2]

/-- Every executed call yields a result message referencing that call's id. -/
theorem resultId_execToolCall (reg : List ToolEntry) (tc : ToolCall) :
    resultId (execToolCall reg tc) = some tc.id := by
  unfold execToolCall
  cases hl : lookupTool reg tc.name with
  | none => rfl
  | some t =>
    cases hi : t.invoke tc.args with
    | ok r => simp [hi, resultId]
    | error e => simp [hi, resultId]

/-- The non-sentinel calls of a turn, in request order. -/
def nonSentinel (tcs : List ToolCall) : List ToolCall :=
  tcs.filter (fun tc => tc.name != "AskUser")

/-- The ids referenced by the step's results are exactly the ids of the
non-sentinel calls, in request order. -/
theorem toolNode_ids (reg : List ToolEntry) (tcs : List ToolCall) :
    (toolNode reg tcs).map resultId = (nonSentinel tcs).map (fun tc => some tc.id) := by
  unfold toolNode nonSentinel
  rw [List.map_map]
  exact List.map_congr_left (fun tc _ => resultId_execToolCall reg tc)

/-- In a list whose images under `f` are pairwise distinct, exactly one entry
shares its image with a given member. -/
theorem countP_image_eq_one {α : Type} (f : α → String) (l : List α)
    (hnd : (l.map f).Nodup) (a : α) (ha : a ∈ l) :
    l.countP (fun x => f x == f a) = 1 := by
  induction l with
  | nil => cases ha
  | cons b bs ih =>
    have hnotmem : f b ∉ bs.map f := (List.nodup_cons.mp hnd).1
    have hnd' : (bs.map f).Nodup := (List.nodup_cons.mp hnd).2
    rcases List.mem_cons.mp ha with hab | hmem
    · subst hab
      have hzero : bs.countP (fun x => f x == f a) = 0 := by
        apply List.countP_eq_zero.mpr
        intro x hx
        simp only [beq_iff_eq]
        intro hfx
        exact hnotmem (hfx ▸ List.mem_map_of_mem f hx)
      simp [List.countP_cons, hzero]
    · have hone := ih hnd' hmem
      have hfb : (f b == f a) = false := by
        simp only [beq_eq_false_iff_ne]
        intro hfb
        exact hnotmem (hfb ▸ List.mem_map_of_mem f hmem)
      simp [List.countP_cons, hone, hfb]

/-- C2: the Tool-Execution Step appends exactly one result message per
non-sentinel tool call of the turn, each referencing that call's id, in the
order the calls were requested; hence, when the turn's call ids are distinct
(ids are unique within a turn), every non-sentinel call id is matched by
exactly one result message produced before the next assistant message. -/
theorem toolNode_one_result_per_call (reg : List ToolEntry) (tcs : List ToolCall)
    (hnd : (tcs.map ToolCall.id).Nodup) :
    (toolNode reg tcs).length = (nonSentinel tcs).length ∧
    ((toolNode reg tcs).map resultId =
      (nonSentinel tcs).map (fun tc => some tc.id)) ∧
    (∀ tc ∈ nonSentinel tcs,
      (toolNode reg tcs).countP (fun m => resultId m == some tc.id) = 1) := by
  refine ⟨?_, toolNode_ids reg tcs, ?_⟩
  · have h := congrArg List.length (toolNode_ids reg tcs)
    simpa using h
  · intro tc htc
    have hnd' : ((nonSentinel tcs).map ToolCall.id).Nodup :=
      hnd.sublist ((List.filter_sublist tcs).map ToolCall.id)
    have hm : toolNode reg tcs = (nonSentinel tcs).map (execToolCall reg) := rfl
    rw [hm, List.countP_map]
    have hp : ((fun m => resultId m == some tc.id) ∘ execToolCall reg) =
        (fun x => ToolCall.id x == ToolCall.id tc) := by
      funext x
      simp [Function.comp, resultId_execToolCall]
    rw [hp]
    exact countP_image_eq_one ToolCall.id (nonSentinel tcs) hnd' tc htc

/-- Witness for C2 at a concrete two-call turn with distinct ids. -/
theorem toolNode_one_result_per_call_witness :
    (toolNode [⟨"clock", fun _ => Except.ok "noon"⟩]
        [⟨"call_1", "clock", ""⟩, ⟨"call_2", "search", "q"⟩]).length =
      (nonSentinel [⟨"call_1", "clock", ""⟩, ⟨"call_2", "search", "q"⟩]).length := by
  have h := toolNode_one_result_per_call
      [⟨"clock", fun _ => Except.ok "noon"⟩]
      [⟨"call_1", "clock", ""⟩, ⟨"call_2", "search", "q"⟩] (by decide)
  exact h.1

/-- C8: one execution of the Model-Invocation Step appends exactly one new
assistant message — the raw result of invoking the external model on the full
history — with no branching on its content: the prior messages survive
unchanged as a prefix and nothing else is modified. -/
theorem agent_node_appends_one_message (llm : LLM) (msgs : List Message) :
    add_messages msgs (agent_node llm msgs) =
      msgs ++ [Message.assistant (llm msgs).1 (llm msgs).2] ∧
    (agent_node llm msgs).length = 1 ∧
    (add_messages msgs (agent_node llm msgs)).take msgs.length = msgs := by
  refine ⟨rfl, rfl, ?_⟩
  simp [add_messages, agent_node, List.take_append]

/-- The persisted next-step marker of a checkpoint: RUNNING at the agent node,
suspended before tool execution (AWAITING_TOOL_DISPATCH), suspended for human
clarification (AWAITING_HUMAN), or terminated (no pending step). -/
inductive NextStep where
  | agent
  | tools
  | ask_user
  | done
deriving DecidableEq

/-- Modelled from the spec: a Checkpoint — the latest conversation state plus
the next-step marker, the value persisted per conversation id. -/
structure Checkpoint where
  messages : List Message
  next : NextStep
deriving DecidableEq

/-- Modelled from the spec: the in-memory Checkpoint Store (MemorySaver),
keyed by conversation id (`thread_id`). -/
def Store : Type := String → Option Checkpoint

/-- Load the checkpoint for a conversation id, if any. -/
def Store.load (s : Store) (cid : String) : Option Checkpoint := s cid

/-- Save a checkpoint under a conversation id (last write wins). -/
def Store.save (s : Store) (cid : String) (cp : Checkpoint) : Store :=
  fun c => if c = cid then some cp else s c

/-- Whether the compiled graph interrupts before the tools node
(`interrupt_before=["tools"]` in the approval notebook). -/
structure Policy where
  interruptBeforeTools : Bool

/-- The tool calls staged on the latest message of the state. -/
def lastToolCalls (msgs : List Message) : List ToolCall :=
  (msgs.getLast?.map Message.tool_calls).getD []

/-- Modelled from the spec: the orchestration loop — run the Model-Invocation
Step, route on its output, and either terminate, pause for human input, pause
before tool dispatch (under the approval policy), or execute the staged tools
and loop back to the agent node.  `fuel` bounds the number of assistant turns;
an exhausted budget reports the state still RUNNING at the agent node. -/
def runLoop (llm : LLM) (reg : List ToolEntry) (pol : Policy) :
    Nat → List Message → Checkpoint
  | 0, msgs => ⟨msgs, NextStep.agent⟩
  | fuel + 1, msgs =>
    let msgs' := add_messages msgs (agent_node llm msgs)
    match routing_condition msgs' with
    | some Route.END => ⟨msgs', NextStep.done⟩
    | some Route.ask_user => ⟨msgs', NextStep.ask_user⟩
    | some Route.tool_node =>
      if pol.interruptBeforeTools then ⟨msgs', NextStep.tools⟩
      else runLoop llm reg pol fuel
        (add_messages msgs' (toolNode reg (lastToolCalls msgs')))
    | none => ⟨msgs', NextStep.agent⟩

/-- Modelled from the spec: the caller-facing `run` — load prior state for the
conversation id (or synthesize empty state), append the user message, drive the
loop, and persist the resulting checkpoint under that id. -/
def run (llm : LLM) (reg : List ToolEntry) (pol : Policy) (fuel : Nat)
    (store : Store) (cid : String) (userText : String) : Store × Checkpoint :=
  let prior := ((store.load cid).map Checkpoint.messages).getD []
  let cp := runLoop llm reg pol fuel
    (add_messages prior [Message.user userText])
  (store.save cid cp, cp)

/-- Failure of a resume call with no matching suspended state. -/
inductive ResumeError where
  | noPendingCheckpoint
deriving DecidableEq

/-- Modelled from the spec: `resume` — with no checkpoint for the id (or no
matching suspended state) fail with NoPendingCheckpointError and leave the
store untouched; from AWAITING_TOOL_DISPATCH with no payload, execute exactly
the staged tool calls and continue the loop; from AWAITING_HUMAN with a human
payload, append it as the pending call's tool-result message and continue the
loop from the agent node. -/
def resume (llm : LLM) (reg : List ToolEntry) (pol : Policy) (fuel : Nat)
    (store : Store) (cid : String) (payload : Option String) :
    Store × Except ResumeError Checkpoint :=
  match store.load cid with
  | none => (store, Except.error ResumeError.noPendingCheckpoint)
  | some cp =>
    match cp.next, payload with
    | NextStep.tools, none =>
      let staged := lastToolCalls cp.messages
      let msgs := add_messages cp.messages (toolNode reg staged)
      let cp' := runLoop llm reg pol fuel msgs
      (store.save cid cp', Except.ok cp')
    | NextStep.ask_user, some text =>
      let tcid := (((lastToolCalls cp.messages).head?).map ToolCall.id).getD ""
      let msgs := add_messages cp.messages [Message.tool tcid text]
      let cp' := runLoop llm reg pol fuel msgs
      (store.save cid cp', Except.ok cp')
    | _, _ => (store, Except.error ResumeError.noPendingCheckpoint)

/-- A caller-level mutation performed under one conversation id: a fresh run
with a user message, or a resume with an optional payload. -/
inductive StoreOp where
  | runOp (userText : String)
  | resumeOp (payload : Option String)

/-- Apply one caller-level mutation to the store under a conversation id. -/
def applyOp (llm : LLM) (reg : List ToolEntry) (pol : Policy) (fuel : Nat)
    (store : Store) (cid : String) : StoreOp → Store
  | StoreOp.runOp t => (run llm reg pol fuel store cid t).1
  | StoreOp.resumeOp p => (resume llm reg pol fuel store cid p).1

/-- Apply a sequence of caller-level mutations under one conversation id. -/
def applyOps (llm : LLM) (reg : List ToolEntry) (pol : Policy) (fuel : Nat)
    (store : Store) (cid : String) : List StoreOp → Store
  | [] => store
  | op :: rest =>
    applyOps llm reg pol fuel (applyOp llm reg pol fuel store cid op) cid rest

/-- One-step unfolding of the loop at positive fuel. -/
theorem runLoop_succ (llm : LLM) (reg : List ToolEntry) (pol : Policy)
    (fuel : Nat) (msgs : List Message) :
    runLoop llm reg pol (fuel + 1) msgs =
      match routing_condition (add_messages msgs (agent_node llm msgs)) with
      | some Route.END =>
        ⟨add_messages msgs (agent_node llm msgs), NextStep.done⟩
      | some Route.ask_user =>
        ⟨add_messages msgs (agent_node llm msgs), NextStep.ask_user⟩
      | some Route.tool_node =>
        if pol.interruptBeforeTools then
          ⟨add_messages msgs (agent_node llm msgs), NextStep.tools⟩
        else runLoop llm reg pol fuel
          (add_messages (add_messages msgs (agent_node llm msgs))
            (toolNode reg (lastToolCalls (add_messages msgs (agent_node llm msgs)))))
      | none => ⟨add_messages msgs (agent_node llm msgs), NextStep.agent⟩ := rfl

/-- Whatever the route, the loop only ever appends to the message history. -/
theorem runLoop_extends (llm : LLM) (reg : List ToolEntry) (pol : Policy) :
    ∀ (fuel : Nat) (msgs : List Message),
    ∃ t, (runLoop llm reg pol fuel msgs).messages = msgs ++ t := by
  intro fuel
  induction fuel with
  | zero =>
    intro msgs
    exact ⟨[], by simp [runLoop]⟩
  | succ n ih =>
    intro msgs
    rw [runLoop_succ]
    cases hr : routing_condition (add_messages msgs (agent_node llm msgs)) with
    | none => exact ⟨agent_node llm msgs, by simp [add_messages]⟩
    | some r =>
      cases r with
      | END => exact ⟨agent_node llm msgs, by simp [add_messages]⟩
      | ask_user => exact ⟨agent_node llm msgs, by simp [add_messages]⟩
      | tool_node =>
        cases hi : pol.interruptBeforeTools with
        | true => exact ⟨agent_node llm msgs, by simp [hi, add_messages]⟩
        | false =>
          obtain ⟨t, ht⟩ := ih (add_messages (add_messages msgs (agent_node llm msgs))
            (toolNode reg (lastToolCalls (add_messages msgs (agent_node llm msgs)))))
          refine ⟨agent_node llm msgs ++
            toolNode reg (lastToolCalls (add_messages msgs (agent_node llm msgs))) ++ t, ?_⟩
          rw [if_neg (by simp [hi]), ht]
          simp [add_messages]

/-- With fuel available, the loop first appends the model's assistant turn. -/
theorem runLoop_step (llm : LLM) (reg : List ToolEntry) (pol : Policy)
    (fuel : Nat) (msgs : List Message) :
    ∃ t, (runLoop llm reg pol (fuel + 1) msgs).messages =
      msgs ++ agent_node llm msgs ++ t := by
  rw [runLoop_succ]
  cases hr : routing_condition (add_messages msgs (agent_node llm msgs)) with
  | none => exact ⟨[], by simp [add_messages]⟩
  | some r =>
    cases r with
    | END => exact ⟨[], by simp [add_messages]⟩
    | ask_user => exact ⟨[], by simp [add_messages]⟩
    | tool_node =>
      cases hi : pol.interruptBeforeTools with
      | true => exact ⟨[], by simp [hi, add_messages]⟩
      | false =>
        obtain ⟨t, ht⟩ := runLoop_extends llm reg pol fuel
          (add_messages (add_messages msgs (agent_node llm msgs))
            (toolNode reg (lastToolCalls (add_messages msgs (agent_node llm msgs)))))
        refine ⟨toolNode reg (lastToolCalls (add_messages msgs (agent_node llm msgs))) ++ t, ?_⟩
        rw [if_neg (by simp [hi]), ht]
        simp [add_messages]

/-- Every executed call produces a tool-result message for that call's id. -/
theorem execToolCall_is_tool (reg : List ToolEntry) (tc : ToolCall) :
    ∃ c, execToolCall reg tc = Message.tool tc.id c := by
  unfold execToolCall
  cases hl : lookupTool reg tc.name with
  | none => exact ⟨_, rfl⟩
  | some t =>
    cases hi : t.invoke tc.args with
    | ok r => exact ⟨r, by simp [hi]⟩
    | error e => exact ⟨"Error: " ++ e, by simp [hi]⟩

/-- C3: a tool call whose invocation raises still yields a result message
carrying the error description, every other call of the turn still yields its
result message in request order, and — since the step and the loop are total
functions — no exception escapes: under the non-interrupting policy, after the
turn's tool results are appended the run proceeds to a subsequent
Model-Invocation Step. -/
theorem tool_failure_is_contained (reg : List ToolEntry) (tcs : List ToolCall)
    (tc : ToolCall) (t : ToolEntry) (e : String)
    (hmem : tc ∈ tcs) (hns : tc.name ≠ "AskUser")
    (hl : lookupTool reg tc.name = some t)
    (herr : t.invoke tc.args = Except.error e) :
    execToolCall reg tc = Message.tool tc.id ("Error: " ++ e) ∧
    ((toolNode reg tcs).map resultId =
      (nonSentinel tcs).map (fun c => some c.id)) ∧
    Message.tool tc.id ("Error: " ++ e) ∈ toolNode reg tcs ∧
    (∀ (llm : LLM) (fuel : Nat) (msgs : List Message),
      routing_condition (add_messages msgs (agent_node llm msgs)) =
        some Route.tool_node →
      lastToolCalls (add_messages msgs (agent_node llm msgs)) = tcs →
      ∃ rest, (runLoop llm reg ⟨false⟩ (fuel + 2) msgs).messages =
        add_messages msgs (agent_node llm msgs) ++ toolNode reg tcs ++
          agent_node llm (add_messages msgs (agent_node llm msgs) ++ toolNode reg tcs) ++
          rest) := by
  have hexec : execToolCall reg tc = Message.tool tc.id ("Error: " ++ e) := by
    simp [execToolCall, hl, herr]
  refine ⟨hexec, toolNode_ids reg tcs, ?_, ?_⟩
  · have hf : tc ∈ nonSentinel tcs := by
      unfold nonSentinel
      refine List.mem_filter.mpr ⟨hmem, ?_⟩
      simpa using hns
    have hm : execToolCall reg tc ∈ toolNode reg tcs := by
      unfold toolNode
      exact List.mem_map_of_mem (execToolCall reg) hf
    rwa [hexec] at hm
  · intro llm fuel msgs hr htc
    have hfuel : fuel + 2 = fuel + 1 + 1 := rfl
    have heq : runLoop llm reg ⟨false⟩ (fuel + 1 + 1) msgs =
        runLoop llm reg ⟨false⟩ (fuel + 1)
          (add_messages (add_messages msgs (agent_node llm msgs))
            (toolNode reg (lastToolCalls (add_messages msgs (agent_node llm msgs))))) := by
      rw [runLoop_succ, hr]
      simp
    obtain ⟨rest, hrest⟩ := runLoop_step llm reg ⟨false⟩ fuel
      (add_messages (add_messages msgs (agent_node llm msgs))
        (toolNode reg (lastToolCalls (add_messages msgs (agent_node llm msgs)))))
    refine ⟨rest, ?_⟩
    rw [hfuel, heq, hrest, htc]
    simp [add_messages]

/-- C4: from the approval pause (AWAITING_TOOL_DISPATCH), resuming with no
payload re-enters the Tool-Execution Step on exactly the previously staged tool
calls, unmodified: their results — one tool-result message per staged call, and
tool-result messages only, so the model collaborator is not re-invoked
beforehand — are the first messages appended after the suspended history. -/
theorem resume_executes_staged_calls (llm : LLM) (reg : List ToolEntry)
    (pol : Policy) (fuel : Nat) (store : Store) (cid : String) (cp : Checkpoint)
    (hload : store.load cid = some cp)
    (hnext : cp.next = NextStep.tools)
    (hns : ∀ tc ∈ lastToolCalls cp.messages, tc.name ≠ "AskUser") :
    ∃ cp' rest,
      resume llm reg pol fuel store cid none =
        (store.save cid cp', Except.ok cp') ∧
      cp'.messages =
        cp.messages ++ toolNode reg (lastToolCalls cp.messages) ++ rest ∧
      (toolNode reg (lastToolCalls cp.messages)).length =
        (lastToolCalls cp.messages).length ∧
      (∀ m ∈ toolNode reg (lastToolCalls cp.messages),
        ∃ i c, m = Message.tool i c) := by
  obtain ⟨ms, nx⟩ := cp
  have hnx : nx = NextStep.tools := hnext
  subst hnx
  have hres : resume llm reg pol fuel store cid none =
      (store.save cid (runLoop llm reg pol fuel
          (add_messages ms (toolNode reg (lastToolCalls ms)))),
        Except.ok (runLoop llm reg pol fuel
          (add_messages ms (toolNode reg (lastToolCalls ms))))) := by
    simp [resume, hload]
  obtain ⟨rest, hrest⟩ := runLoop_extends llm reg pol fuel
    (add_messages ms (toolNode reg (lastToolCalls ms)))
  refine ⟨runLoop llm reg pol fuel
      (add_messages ms (toolNode reg (lastToolCalls ms))), rest, hres, ?_, ?_, ?_⟩
  · rw [hrest]
    simp [add_messages]
  · have hall : nonSentinel (lastToolCalls ms) = lastToolCalls ms := by
      unfold nonSentinel
      apply List.filter_eq_self.mpr
      intro c hc
      simpa using hns c hc
    have hlen := congrArg List.length (toolNode_ids reg (lastToolCalls ms))
    simp only [List.length_map] at hlen
    rw [hlen, hall]
  · intro m hm
    unfold toolNode at hm
    obtain ⟨c, _, hmt⟩ := List.mem_map.mp hm
    obtain ⟨s, hs⟩ := execToolCall_is_tool reg c
    exact ⟨c.id, s, by rw [← hmt, hs]⟩

/-- C5: resuming a conversation id with no pending checkpoint fails with
NoPendingCheckpointError, leaves the store untouched (no state is created for
that id), and a second resume call fails identically. -/
theorem resume_without_checkpoint_fails (llm : LLM) (reg : List ToolEntry)
    (pol : Policy) (fuel : Nat) (store : Store) (cid : String)
    (payload : Option String) (h : store.load cid = none) :
    resume llm reg pol fuel store cid payload =
      (store, Except.error ResumeError.noPendingCheckpoint) ∧
    resume llm reg pol fuel
        (resume llm reg pol fuel store cid payload).1 cid payload =
      (store, Except.error ResumeError.noPendingCheckpoint) := by
  have h1 : resume llm reg pol fuel store cid payload =
      (store, Except.error ResumeError.noPendingCheckpoint) := by
    simp [resume, h]
  refine ⟨h1, ?_⟩
  rw [h1]
  exact h1

/-- Saving under one conversation id does not change loads of another. -/
theorem save_load_ne (store : Store) (A B : String) (hne : B ≠ A)
    (cp : Checkpoint) : (store.save A cp).load B = store.load B := by
  simp [Store.save, Store.load, hne]

/-- A single run or resume under id A leaves loads of any other id unchanged. -/
theorem applyOp_load_ne (llm : LLM) (reg : List ToolEntry) (pol : Policy)
    (fuel : Nat) (store : Store) (A B : String) (hne : B ≠ A) (op : StoreOp) :
    (applyOp llm reg pol fuel store A op).load B = store.load B := by
  cases op with
  | runOp t =>
    simp [applyOp, run, Store.save, Store.load, hne]
  | resumeOp p =>
    show (resume llm reg pol fuel store A p).1.load B = store.load B
    unfold resume
    cases hl : store.load A with
    | none => rfl
    | some cp =>
      obtain ⟨ms, nx⟩ := cp
      cases nx <;> cases p <;> simp [Store.save, Store.load, hne]

/-- C7: any sequence of caller-level mutations (runs, tool executions within
them, resumes) performed under conversation id A leaves the checkpoint loaded
for any other id B unchanged. -/
theorem conversation_isolation (llm : LLM) (reg : List ToolEntry) (pol : Policy)
    (fuel : Nat) (A B : String) (hne : B ≠ A) (store : Store)
    (ops : List StoreOp) :
    (applyOps llm reg pol fuel store A ops).load B = store.load B := by
  induction ops generalizing store with
  | nil => rfl
  | cons op rest ih =>
    have h1 : applyOps llm reg pol fuel store A (op :: rest) =
        applyOps llm reg pol fuel (applyOp llm reg pol fuel store A op) A rest := rfl
    rw [h1, ih, applyOp_load_ne llm reg pol fuel store A B hne op]

/-- C6: within a single resumed run the message history is append-only — the
loop only extends the history it is given, and a successful resume (bare
proceed or human-supplied substitute response) only appends to the suspended
checkpoint's messages; nothing is removed, reordered, or replaced. -/
theorem messages_append_only (llm : LLM) (reg : List ToolEntry) (pol : Policy)
    (fuel : Nat) (msgs : List Message) :
    (∃ t, (runLoop llm reg pol fuel msgs).messages = msgs ++ t) ∧
    (∀ (store : Store) (cid : String) (payload : Option String)
        (cp cp' : Checkpoint), store.load cid = some cp →
      (resume llm reg pol fuel store cid payload).2 = Except.ok cp' →
      ∃ t, cp'.messages = cp.messages ++ t) := by
  refine ⟨runLoop_extends llm reg pol fuel msgs, ?_⟩
  intro store cid payload cp cp' hload hok
  obtain ⟨ms, nx⟩ := cp
  cases nx with
  | agent => cases payload <;> simp [resume, hload] at hok
  | done => cases payload <;> simp [resume, hload] at hok
  | tools =>
    cases payload with
    | some text => simp [resume, hload] at hok
    | none =>
      simp only [resume, hload] at hok
      have hcp : runLoop llm reg pol fuel
          (add_messages ms (toolNode reg (lastToolCalls ms))) = cp' :=
        Except.ok.inj hok
      obtain ⟨t, ht⟩ := runLoop_extends llm reg pol fuel
        (add_messages ms (toolNode reg (lastToolCalls ms)))
      refine ⟨toolNode reg (lastToolCalls ms) ++ t, ?_⟩
      rw [← hcp, ht]
      simp [add_messages]
  | ask_user =>
    cases payload with
    | none => simp [resume, hload] at hok
    | some text =>
      simp only [resume, hload] at hok
      have hcp : runLoop llm reg pol fuel
          (add_messages ms
            [Message.tool ((((lastToolCalls ms).head?).map ToolCall.id).getD "") text]) = cp' :=
        Except.ok.inj hok
      obtain ⟨t, ht⟩ := runLoop_extends llm reg pol fuel
        (add_messages ms
          [Message.tool ((((lastToolCalls ms).head?).map ToolCall.id).getD "") text])
      refine ⟨[Message.tool ((((lastToolCalls ms).head?).map ToolCall.id).getD "") text] ++ t, ?_⟩
      rw [← hcp, ht]
      simp [add_messages]

/-- A concrete model collaborator used by the witnesses: it always answers
with plain content and no tool calls. -/
def wLLM : LLM := fun _ => ("done", [])

/-- A concrete one-tool registry used by the witnesses. -/
def wReg4 : List ToolEntry :=
  [⟨"search", fun q => Except.ok ("results for " ++ q)⟩]

/-- A concrete suspended checkpoint: one staged search call, interrupted
before the tools node. -/
def wCp : Checkpoint :=
  ⟨[Message.user "weather?",
    Message.assistant "" [⟨"call_1", "search", "weather"⟩]], NextStep.tools⟩

/-- A concrete store holding `wCp` under one conversation id. -/
def wStore : Store := Store.save (fun _ => none) "thread-1" wCp

/-- The checkpoint produced by resuming `wStore` with no payload. -/
def wResumed : Checkpoint :=
  ⟨[Message.user "weather?",
    Message.assistant "" [⟨"call_1", "search", "weather"⟩],
    Message.tool "call_1" "results for weather",
    Message.assistant "done" []], NextStep.done⟩

/-- A concrete failing tool entry used by the witnesses. -/
def wFlaky : ToolEntry := ⟨"flaky", fun _ => Except.error "connection refused"⟩

/-- A two-tool registry whose second tool always raises. -/
def wReg3 : List ToolEntry :=
  [⟨"tavily_search_results_json", fun q => Except.ok ("results for " ++ q)⟩,
   wFlaky]

/-- A concrete two-call turn whose first call hits the failing tool. -/
def wCalls : List ToolCall :=
  [⟨"call_1", "flaky", "x"⟩,
   ⟨"call_2", "tavily_search_results_json", "tokyo"⟩]

/-- Witness for C3: in the two-call turn with one raising tool, the step still
yields a result message for the failing call, carrying the error text. -/
theorem tool_failure_is_contained_witness :
    Message.tool "call_1" ("Error: " ++ "connection refused") ∈
      toolNode wReg3 wCalls := by
  have h := tool_failure_is_contained wReg3 wCalls
      ⟨"call_1", "flaky", "x"⟩ wFlaky "connection refused"
      (by decide) (by decide) rfl rfl
  exact h.2.2.1

/-- Witness for C4 at the concrete suspended store. -/
theorem resume_executes_staged_calls_witness :
    ∃ cp' rest,
      resume wLLM wReg4 ⟨true⟩ 1 wStore "thread-1" none =
        (Store.save wStore "thread-1" cp', Except.ok cp') ∧
      cp'.messages =
        wCp.messages ++ toolNode wReg4 (lastToolCalls wCp.messages) ++ rest ∧
      (toolNode wReg4 (lastToolCalls wCp.messages)).length =
        (lastToolCalls wCp.messages).length ∧
      (∀ m ∈ toolNode wReg4 (lastToolCalls wCp.messages),
        ∃ i c, m = Message.tool i c) :=
  resume_executes_staged_calls wLLM wReg4 ⟨true⟩ 1 wStore "thread-1" wCp
    rfl rfl (by decide)

/-- Witness for C5 at an empty store and a nonexistent conversation id. -/
theorem resume_without_checkpoint_fails_witness :
    resume wLLM wReg4 ⟨true⟩ 1 (fun _ => none) "nonexistent-id" none =
      ((fun _ => none : Store), Except.error ResumeError.noPendingCheckpoint) ∧
    resume wLLM wReg4 ⟨true⟩ 1
        (resume wLLM wReg4 ⟨true⟩ 1 (fun _ => none) "nonexistent-id" none).1
        "nonexistent-id" none =
      ((fun _ => none : Store), Except.error ResumeError.noPendingCheckpoint) :=
  resume_without_checkpoint_fails wLLM wReg4 ⟨true⟩ 1 (fun _ => none)
    "nonexistent-id" none rfl

/-- Witness for C6: the concrete resumed checkpoint extends the suspended one
by appended messages only. -/
theorem messages_append_only_witness :
    ∃ t, wResumed.messages = wCp.messages ++ t :=
  (messages_append_only wLLM wReg4 ⟨true⟩ 1 []).2 wStore "thread-1" none
    wCp wResumed rfl rfl

/-- Witness for C7: a run under one conversation id leaves the checkpoint of
another id untouched. -/
theorem conversation_isolation_witness :
    (applyOps wLLM wReg4 ⟨true⟩ 1 wStore "user_1"
      [StoreOp.runOp "Hi"]).load "thread-1" = wStore.load "thread-1" :=
  conversation_isolation wLLM wReg4 ⟨true⟩ 1 "user_1" "thread-1" (by decide)
    wStore [StoreOp.runOp "Hi"]

/-- Month names as rendered by strftime's %B directive. -/
def monthName : Nat → String
  | 1 => "January"
  | 2 => "February"
  | 3 => "March"
  | 4 => "April"
  | 5 => "May"
  | 6 => "June"
  | 7 => "July"
  | 8 => "August"
  | 9 => "September"
  | 10 => "October"
  | 11 => "November"
  | 12 => "December"
  | _ => ""

/-- Day of month as rendered by strftime's %d directive (zero padded). -/
def pad2 (n : Nat) : String :=
  if n < 10 then "0" ++ toString n else toString n

/-- A calendar date as read from the system clock. -/
structure Date where
  day : Nat
  month : Nat
  year : Nat
deriving DecidableEq

/-- Embedded from the source (`get_current_date`): returns the string
"The current date is: " followed by the clock's date rendered with
strftime format %d %B %Y.  The Python body reads `datetime.now()` — an
interaction with the system clock — which the shallow embedding passes in as
the explicit argument `now`. -/
def get_current_date (now : Date) : String :=
  "The current date is: " ++ pad2 now.day ++ " " ++ monthName now.month ++
    " " ++ toString now.year

/-- Counterexample to C9 as stated: two invocations of `get_current_date`
with different clock readings (13 and 19 October 2024, dates on which the
notebooks' recorded outputs were produced) return different strings, so the
tool is not invariant across invocations and does read state outside the
function, namely the system clock. -/
theorem get_current_date_not_constant :
    get_current_date ⟨13, 10, 2024⟩ ≠ get_current_date ⟨19, 10, 2024⟩ := by
  decide

/-- C9 amended: the current-time tool is deterministic given the clock — its
result depends on nothing but the current date read from the system clock, so
any two invocations observing the same date return equal result strings. -/
theorem get_current_date_deterministic (d₁ d₂ : Date) (h : d₁ = d₂) :
    get_current_date d₁ = get_current_date d₂ := by
  rw [h]

/-- Witness for the amended C9 at a concrete date. -/
theorem get_current_date_deterministic_witness :
    get_current_date ⟨19, 10, 2024⟩ = get_current_date ⟨19, 10, 2024⟩ :=
  get_current_date_deterministic ⟨19, 10, 2024⟩ ⟨19, 10, 2024⟩ rfl

end AgentLoop
